import Mathlib

/-!
Shallow embedding of `solution.py` (a small static style checker built on
Python's `ast` module) and proofs about its checks.

Modelling conventions:
* Python exceptions are modelled with `Except PyError`; `ast.parse` is an
  external collaborator, so the facade `critic` is parameterized by an
  abstract `parse : String → Except PyError Module`.
* An AST node is modelled by `PyNode`: its `lineno`, `col_offset`, whether
  the string "body" occurs in `node._fields` (`hasBody`), the child nodes of
  the `body` field, and the child nodes of the fields before (`pre`) and
  after (`post`) the `body` field, in field order, so that
  `ast.iter_child_nodes` is `children`.  Nodes whose `body` field is a single
  expression rather than a statement list (Lambda, IfExp) are outside this
  model.  Source texts are modelled with "\n" line terminators only.
* `ast.walk` is a breadth-first traversal (a deque popped from the left and
  extended with children); `walkForest` reproduces that level order, using
  the total node count as structural fuel so that it evaluates by kernel
  reduction.
* `self.issues` is a `defaultdict(set)` keyed by line number; we model the
  sink as a duplicate-free association list built by `addIssue`.
-/

namespace PyCritic

/-- Python exceptions that the analyzer can raise. -/
inductive PyError : Type where
  | syntaxError : PyError
  | indexError : PyError
deriving DecidableEq, Repr

/-- The issue sink: `defaultdict(set)` mapping line number to the set of
messages on that line, flattened to a duplicate-free list of pairs. -/
abbrev Issues := List (Nat × String)

/-- Model of `self.issues[line].add(msg)`: set insertion, a no-op when present. -/
def addIssue (s : Issues) (line : Nat) (msg : String) : Issues :=
  if (line, msg) ∈ s then s else s ++ [(line, msg)]

mutual
/-- A Python AST node as consumed by the analyzer: line, column offset,
whether "body" is among `_fields`, the `body` children, and the child nodes
occurring in fields before / after `body`.  Child sequences use the mutual
`PyNodeList` so that structural recursion over the tree is available. -/
inductive PyNode : Type where
  | mk (lineno col_offset : Nat) (hasBody : Bool) (body pre post : PyNodeList)

/-- A list of AST nodes (mutually defined with `PyNode`). -/
inductive PyNodeList : Type where
  | nil : PyNodeList
  | cons (n : PyNode) (ns : PyNodeList) : PyNodeList
end

/-- Convert a node-list to an ordinary `List`. -/
def PyNodeList.toList : PyNodeList → List PyNode
  | .nil => []
  | .cons n ns => n :: ns.toList

/-- Build a `PyNodeList` from an ordinary `List`. -/
def PyNodeList.ofList : List PyNode → PyNodeList
  | [] => .nil
  | n :: ns => .cons n (PyNodeList.ofList ns)

/-- Convenience constructor taking ordinary lists of children. -/
def node (lineno col_offset : Nat) (hasBody : Bool)
    (body pre post : List PyNode) : PyNode :=
  .mk lineno col_offset hasBody (.ofList body) (.ofList pre) (.ofList post)

def PyNode.lineno : PyNode → Nat
  | .mk l _ _ _ _ _ => l

def PyNode.col_offset : PyNode → Nat
  | .mk _ c _ _ _ _ => c

def PyNode.hasBody : PyNode → Bool
  | .mk _ _ h _ _ _ => h

def PyNode.body : PyNode → List PyNode
  | .mk _ _ _ b _ _ => b.toList

def PyNode.pre : PyNode → List PyNode
  | .mk _ _ _ _ p _ => p.toList

def PyNode.post : PyNode → List PyNode
  | .mk _ _ _ _ _ q => q.toList

mutual
/-- Number of nodes in the subtree rooted at a node (≥ 1). -/
def sizeN : PyNode → Nat
  | .mk _ _ _ b p q => 1 + sizeNL b + sizeNL p + sizeNL q

/-- Number of nodes in a forest given as a `PyNodeList`. -/
def sizeNL : PyNodeList → Nat
  | .nil => 0
  | .cons n ns => sizeN n + sizeNL ns
end

/-- Number of nodes in a forest given as an ordinary list. -/
def sizeL (ns : List PyNode) : Nat :=
  ns.foldr (fun n acc => sizeN n + acc) 0

/-- Model of `ast.iter_child_nodes`: the node's children in field order. -/
def children (n : PyNode) : List PyNode :=
  n.pre ++ (if n.hasBody then n.body else []) ++ n.post

/-- Model of `ast.Module`: the parse-tree root, owning the top-level statements. -/
structure Module : Type where
  body : List PyNode

/-- The Module root viewed as a walkable node: `_fields` contains "body"
(`Module._fields = ('body', 'type_ignores')`), and its children are the
top-level statements.  A Module has no `lineno`/`col_offset` attribute; the
analyzer never reads them on the root, so 0 stands in. -/
def Module.toNode (m : Module) : PyNode :=
  node 0 0 true m.body [] []

/-- Breadth-first traversal of a forest, with explicit fuel: one unfolding
appends the current roots and recurses on all their children, which is
exactly the level order produced by the deque in `ast.walk`. -/
def walkGo : Nat → List PyNode → List PyNode
  | 0, _ => []
  | _ + 1, [] => []
  | fuel + 1, n :: rest => (n :: rest) ++ walkGo fuel ((n :: rest).flatMap children)

/-- Model of `ast.walk` from a forest of roots: breadth-first, each node before its
descendants, in level order.  `sizeL` bounds the number of levels. -/
def walkForest (ns : List PyNode) : List PyNode :=
  walkGo (sizeL ns + 1) ns

/-- Depth-first pre-order traversal of a forest (the order §4.1 of the
design describes); used as the code-independent enumeration of a subtree. -/
def preGo : Nat → List PyNode → List PyNode
  | 0, _ => []
  | _ + 1, [] => []
  | fuel + 1, n :: rest => n :: (preGo fuel (children n) ++ preGo fuel rest)

/-- Depth-first pre-order enumeration of the subtrees rooted at `ns`. -/
def preorder (ns : List PyNode) : List PyNode :=
  preGo (sizeL ns + 1) ns

/-- The total number of body-bearing nodes in the subtree rooted at `n`
(an enumeration-order-independent count, via the pre-order traversal). -/
def bodyCount (n : PyNode) : Nat :=
  ((preorder [n]).filter (fun x => x.hasBody)).length

/-! ## The `CodeErrors` message catalogue

In the Python source each message method returns the formatted string when
`actual > allowed` and `None` otherwise; every call site guards with the same
comparison first, so here the messages are the plain formatted strings. -/

/-- Message of `CodeErrors.line_too_long`: message for an overlong line. -/
def line_too_long (actual allowed : Nat) : String :=
  "line too long (" ++ toString actual ++ " > " ++ toString allowed ++ ")"

/-- Message of `CodeErrors.multiple_expressions`: message for a semicolon-bearing line. -/
def multiple_expressions : String := "multiple expressions on the same line"

/-- Message of `CodeErrors.nesting_too_deep`: message for excessive nesting. -/
def nesting_too_deep (actual allowed : Nat) : String :=
  "nesting too deep (" ++ toString actual ++ " > " ++ toString allowed ++ ")"

/-- Message of `CodeErrors.indentation`: message for an oversized indentation step. -/
def indentation (actual allowed : Nat) : String :=
  "indentation is " ++ toString actual ++ " instead of " ++ toString allowed

/-! ## `CodeAnalyzer.RULES` — the default rule set

The Python class attribute is a dict with heterogeneous values; each entry is
modelled by one constant.  `None` entries become `Option.none`. -/

def RULES_line_length : Nat := 79
def RULES_forbid_semicolons : Bool := true
def RULES_max_nesting : Option Nat := none
def RULES_indentation_size : Nat := 4
def RULES_methods_per_class : Option Nat := none
def RULES_max_arity : Option Nat := none
def RULES_forbid_trailing_whitespace : Bool := true
def RULES_max_lines_per_function : Option Nat := none

/-- The keys of `CodeAnalyzer.RULES`, i.e. the known rule names. -/
def RULE_NAMES : List String :=
  ["line_length", "forbid_semicolons", "max_nesting", "indentation_size",
   "methods_per_class", "max_arity", "forbid_trailing_whitespace",
   "max_lines_per_function"]

/-! ## Source-text handling -/

/-- Split a character list at every newline; always returns one more segment
than there are newlines. -/
def splitNl : List Char → List (List Char)
  | [] => [[]]
  | c :: cs =>
    if c = '\n' then [] :: splitNl cs
    else
      match splitNl cs with
      | [] => [[c]]
      | p :: ps => (c :: p) :: ps

/-- Python's `str.splitlines` restricted to "\n" terminators: split on every
newline, with no empty trailing line for a terminating newline, and no lines
at all for the empty string. -/
def splitlines (s : String) : List String :=
  if s = "" then []
  else
    let parts := splitNl s.data
    (if parts.getLast? = some [] then parts.dropLast else parts).map fun l => ⟨l⟩

/-! ## The individual checks

Each check mirrors one instance method of `CodeAnalyzer`, threading the
mutable `self.issues` sink explicitly.  The two tree checks can raise
`IndexError` (`body[0]` on an empty body), hence return `Except`. -/

/-- Loop body of `CodeAnalyzer.line_length`: `enumerate(code.splitlines())`
with 0-based `lineno`, reporting at key `lineno + 1`. -/
def line_length_go (limit : Nat) : Nat → List String → Issues → Issues
  | _, [], issues => issues
  | lineno, l :: rest, issues =>
    line_length_go limit (lineno + 1) rest
      (if l.length > limit then
        addIssue issues (lineno + 1) (line_too_long l.length limit)
      else issues)

/-- Model of `CodeAnalyzer.line_length`: flag every physical line longer than
`RULES['line_length']`. -/
def line_length (code : String) (issues : Issues) : Issues :=
  line_length_go RULES_line_length 0 (splitlines code) issues

/-- Loop body of `CodeAnalyzer.forbid_semicolons`: `re.search('(;)', line)`
succeeds exactly when the line contains a semicolon. -/
def forbid_semicolons_go : Nat → List String → Issues → Issues
  | _, [], issues => issues
  | lineno, l :: rest, issues =>
    forbid_semicolons_go (lineno + 1) rest
      (if l.data.contains ';' then
        addIssue issues (lineno + 1) multiple_expressions
      else issues)

/-- Model of `CodeAnalyzer.forbid_semicolons`: flag every line containing `;`. -/
def forbid_semicolons (code : String) (issues : Issues) : Issues :=
  forbid_semicolons_go 0 (splitlines code) issues

/-- Model of `CodeAnalyzer.max_nesting`: walk the subtree of the first top-level
statement (`self.parsed_code.body[0]`, an `IndexError` on an empty module),
collect the nodes whose `_fields` contain "body", and when there are more
than the hardcoded `max_nesting_level = 3` of them report at the line after
the last collected node's line.  (`nodes[len(nodes)-1]` is guarded by the
`> 3` test, so the inner `none` branch is unreachable.) -/
def max_nesting (m : Module) (issues : Issues) : Except PyError Issues :=
  match m.body with
  | [] => .error .indexError
  | first :: _ =>
    let nodes := (walkForest [first]).filter (fun x => x.hasBody)
    let nesting_level := nodes.length
    if nesting_level > 3 then
      match nodes.getLast? with
      | some lst =>
        .ok (addIssue issues (lst.lineno + 1) (nesting_too_deep nesting_level 3))
      | none => .error .indexError
    else .ok issues

/-- Loop body of `CodeAnalyzer.indentation_size`: for each walked node with
a "body" field, compare its first body statement's column offset with the
running `last_offset`, report when the increase exceeds the indent, and
update `last_offset` to the child offset regardless. -/
def ind_go (indent : Nat) : List PyNode → Nat → Issues → Except PyError Issues
  | [], _, issues => .ok issues
  | n :: rest, last_offset, issues =>
    if n.hasBody then
      match n.body with
      | [] => .error .indexError
      | c :: _ =>
        if c.col_offset > last_offset + indent then
          ind_go indent rest c.col_offset
            (addIssue issues c.lineno (indentation (c.col_offset - last_offset) indent))
        else
          ind_go indent rest c.col_offset issues
    else
      ind_go indent rest last_offset issues

/-- Model of `CodeAnalyzer.indentation_size`: walk the whole tree (`ast.walk` from the
Module root) with a single running previous offset, starting at 0. -/
def indentation_size (m : Module) (issues : Issues) : Except PyError Issues :=
  ind_go RULES_indentation_size (walkForest [m.toNode]) 0 issues

/-- Model of `CodeAnalyzer.methods_per_class`: a stub — never touches the sink. -/
def methods_per_class (issues : Issues) : Issues := issues

/-- Model of `CodeAnalyzer.max_arity`: a stub — never touches the sink. -/
def max_arity (issues : Issues) : Issues := issues

/-- Model of `CodeAnalyzer.forbid_trailing_whitespace`: a stub — never touches the sink. -/
def forbid_trailing_whitespace (issues : Issues) : Issues := issues

/-- Model of `CodeAnalyzer.max_lines_per_function`: a stub — never touches the sink. -/
def max_lines_per_function (issues : Issues) : Issues := issues

/-! ## The analyzer facade -/

/-- The state built by `CodeAnalyzer.__init__` after a successful
`ast.parse` (the `issues` sink always starts empty). -/
structure CodeAnalyzer : Type where
  code : String
  parsed_code : Module
  rules : Option (List (String × Nat))

/-- Python truthiness of the `rules` argument: `None` and `{}` are falsy. -/
def rulesTruthy : Option (List (String × Nat)) → Bool
  | none => false
  | some r => !r.isEmpty

/-- Model of `CodeAnalyzer.analyze`: when `self.rules` is falsy, run every instance
method (the four real checks plus the four stubs; Python iterates them in an
unspecified set order, determinized here — the sink contents and the raised
error do not depend on the order for trees produced by `ast.parse`) and
return the accumulated sink; when `self.rules` is truthy, run nothing and
return the still-empty sink. -/
def analyze (a : CodeAnalyzer) : Except PyError Issues :=
  if rulesTruthy a.rules then .ok []
  else do
    let i1 := line_length a.code []
    let i2 := forbid_semicolons a.code i1
    let i3 ← max_nesting a.parsed_code i2
    let i4 ← indentation_size a.parsed_code i3
    return max_lines_per_function (forbid_trailing_whitespace (max_arity (methods_per_class i4)))

/-- Model of `critic(code, **rules)`: builds `CodeAnalyzer(code)` — without passing
`rules`, so the analyzer's `rules` attribute is `None` — and analyzes.  The
parser is the external `ast.parse`, abstracted as an argument. -/
def critic (parse : String → Except PyError Module) (code : String)
    (rules : List (String × Nat)) : Except PyError Issues :=
  (parse code).bind fun t => analyze { code := code, parsed_code := t, rules := none }

/-! ## Sink lemmas -/

theorem mem_addIssue {s : Issues} {line : Nat} {msg : String} {p : Nat × String} :
    p ∈ addIssue s line msg ↔ p ∈ s ∨ p = (line, msg) := by
  unfold addIssue
  split
  · next h =>
    constructor
    · exact fun hp => Or.inl hp
    · rintro (hp | rfl)
      · exact hp
      · exact h
  · simp [List.mem_append]

theorem nodup_addIssue {s : Issues} {line : Nat} {msg : String} (h : s.Nodup) :
    (addIssue s line msg).Nodup := by
  unfold addIssue
  split
  · exact h
  · next hmem => exact h.append (List.nodup_singleton _) (List.disjoint_singleton.2 hmem)

/-- Number of occurrences of one `(line, message)` entry in a sink. -/
def countIssue (s : Issues) (p : Nat × String) : Nat :=
  (s.filter (fun q => q = p)).length

/-- A duplicate-free sink holds each of its members exactly once. -/
theorem countIssue_eq_one {s : Issues} {p : Nat × String}
    (hd : s.Nodup) (hm : p ∈ s) : countIssue s p = 1 := by
  induction s with
  | nil => cases hm
  | cons q rest ih =>
    rcases List.nodup_cons.1 hd with ⟨hq, hrest⟩
    unfold countIssue
    by_cases hpq : q = p
    · subst hpq
      have hnone : rest.filter (fun x => x = q) = [] :=
        List.filter_eq_nil_iff.2 (fun x hx => by
          simp only [decide_eq_true_eq]
          rintro rfl
          exact hq hx)
      simp [hnone]
    · have hm' : p ∈ rest := by
        rcases List.mem_cons.1 hm with h | h
        · exact absurd h.symm hpq
        · exact h
      have := ih hrest hm'
      unfold countIssue at this
      simpa [hpq] using this

/-- Shift an indexed existential across a cons cell. -/
theorem exists_getElem?_cons {α : Type} {x : α} {xs : List α} {P : Nat → α → Prop} :
    (∃ j y, (x :: xs)[j]? = some y ∧ P j y) ↔
      P 0 x ∨ ∃ j y, xs[j]? = some y ∧ P (j + 1) y := by
  constructor
  · rintro ⟨j, y, hj, hP⟩
    cases j with
    | zero =>
      rw [List.getElem?_cons_zero] at hj
      cases hj
      exact Or.inl hP
    | succ j => exact Or.inr ⟨j, y, by simpa using hj, hP⟩
  · rintro (h | ⟨j, y, hj, hP⟩)
    · exact ⟨0, x, by simp, h⟩
    · exact ⟨j + 1, y, by simpa using hj, hP⟩

/-! ## Line-length check: characterization -/

theorem mem_line_length_go (limit : Nat) :
    ∀ (lines : List String) (k : Nat) (issues : Issues) (p : Nat × String),
      p ∈ line_length_go limit k lines issues ↔
        p ∈ issues ∨ ∃ j l, lines[j]? = some l ∧ limit < l.length ∧
          p = (k + j + 1, line_too_long l.length limit)
  | [], k, issues, p => by simp [line_length_go]
  | l :: rest, k, issues, p => by
    rw [show line_length_go limit k (l :: rest) issues =
          line_length_go limit (k + 1) rest
            (if l.length > limit then
              addIssue issues (k + 1) (line_too_long l.length limit)
            else issues) from rfl]
    rw [mem_line_length_go limit rest (k + 1) _ p]
    rw [exists_getElem?_cons]
    have harith : ∀ j : Nat, k + 1 + j + 1 = k + (j + 1) + 1 := by omega
    constructor
    · rintro (hmem | ⟨j, y, hj, hlen, rfl⟩)
      · split at hmem
        · rcases mem_addIssue.1 hmem with hp | rfl
          · exact Or.inl hp
          · exact Or.inr (Or.inl ⟨by assumption, by simp [Nat.add_comm]⟩)
        · exact Or.inl hmem
      · exact Or.inr (Or.inr ⟨j, y, hj, hlen, by rw [harith]⟩)
    · rintro (hp | ⟨hlen, rfl⟩ | ⟨j, y, hj, hlen, rfl⟩)
      · split
        · exact Or.inl (mem_addIssue.2 (Or.inl hp))
        · exact Or.inl hp
      · rw [if_pos (by exact hlen)]
        exact Or.inl (mem_addIssue.2 (Or.inr (by simp [Nat.add_comm])))
      · exact Or.inr ⟨j, y, hj, hlen, by rw [harith]⟩

theorem nodup_line_length_go (limit : Nat) :
    ∀ (lines : List String) (k : Nat) (issues : Issues),
      issues.Nodup → (line_length_go limit k lines issues).Nodup
  | [], _, _, h => h
  | _ :: rest, k, issues, h => by
    rw [show line_length_go limit k (_ :: rest) issues = _ from rfl]
    exact nodup_line_length_go limit rest (k + 1) _ (by split <;> [exact nodup_addIssue h; exact h])

/-- C7, body: membership in the line-length sink. -/
theorem mem_line_length {code : String} {p : Nat × String} :
    p ∈ line_length code [] ↔
      ∃ j l, (splitlines code)[j]? = some l ∧ RULES_line_length < l.length ∧
        p = (j + 1, line_too_long l.length RULES_line_length) := by
  rw [line_length, mem_line_length_go]
  simp [Nat.zero_add]

/-! ## Semicolon check: characterization -/

theorem mem_forbid_semicolons_go :
    ∀ (lines : List String) (k : Nat) (issues : Issues) (p : Nat × String),
      p ∈ forbid_semicolons_go k lines issues ↔
        p ∈ issues ∨ ∃ j l, lines[j]? = some l ∧ l.data.contains ';' = true ∧
          p = (k + j + 1, multiple_expressions)
  | [], k, issues, p => by simp [forbid_semicolons_go]
  | l :: rest, k, issues, p => by
    rw [show forbid_semicolons_go k (l :: rest) issues =
          forbid_semicolons_go (k + 1) rest
            (if l.data.contains ';' then
              addIssue issues (k + 1) multiple_expressions
            else issues) from rfl]
    rw [mem_forbid_semicolons_go rest (k + 1) _ p]
    rw [exists_getElem?_cons]
    have harith : ∀ j : Nat, k + 1 + j + 1 = k + (j + 1) + 1 := by omega
    constructor
    · rintro (hmem | ⟨j, y, hj, hsem, rfl⟩)
      · split at hmem
        · rcases mem_addIssue.1 hmem with hp | rfl
          · exact Or.inl hp
          · exact Or.inr (Or.inl ⟨by assumption, by simp [Nat.add_comm]⟩)
        · exact Or.inl hmem
      · exact Or.inr (Or.inr ⟨j, y, hj, hsem, by rw [harith]⟩)
    · rintro (hp | ⟨hsem, rfl⟩ | ⟨j, y, hj, hsem, rfl⟩)
      · split
        · exact Or.inl (mem_addIssue.2 (Or.inl hp))
        · exact Or.inl hp
      · rw [if_pos (by exact hsem)]
        exact Or.inl (mem_addIssue.2 (Or.inr (by simp [Nat.add_comm])))
      · exact Or.inr ⟨j, y, hj, hsem, by rw [harith]⟩

theorem nodup_forbid_semicolons_go :
    ∀ (lines : List String) (k : Nat) (issues : Issues),
      issues.Nodup → (forbid_semicolons_go k lines issues).Nodup
  | [], _, _, h => h
  | _ :: rest, k, issues, h => by
    rw [show forbid_semicolons_go k (_ :: rest) issues = _ from rfl]
    exact nodup_forbid_semicolons_go rest (k + 1) _
      (by split <;> [exact nodup_addIssue h; exact h])

/-- C8, body: membership in the semicolon sink. -/
theorem mem_forbid_semicolons {code : String} {p : Nat × String} :
    p ∈ forbid_semicolons code [] ↔
      ∃ j l, (splitlines code)[j]? = some l ∧ l.data.contains ';' = true ∧
        p = (j + 1, multiple_expressions) := by
  rw [forbid_semicolons, mem_forbid_semicolons_go]
  simp [Nat.zero_add]

/-- C7: for every physical line of the source, a line of length exactly
`line_length` (default 79) gets no issue from the line-length check, and a
line of length `line_length + 1` or more gets exactly one message
"line too long (L > limit)" keyed by its 1-indexed line number, where L is
the actual length and limit the threshold. -/
theorem line_length_check_exact (code : String) (i : Nat) (l : String)
    (h : (splitlines code)[i]? = some l) :
    (l.length = RULES_line_length → ∀ msg, (i + 1, msg) ∉ line_length code []) ∧
    (RULES_line_length < l.length →
      countIssue (line_length code [])
          (i + 1, line_too_long l.length RULES_line_length) = 1 ∧
      ∀ msg, (i + 1, msg) ∈ line_length code [] →
        msg = line_too_long l.length RULES_line_length) := by
  have key : ∀ msg, (i + 1, msg) ∈ line_length code [] →
      RULES_line_length < l.length ∧ msg = line_too_long l.length RULES_line_length := by
    intro msg hmem
    rcases mem_line_length.1 hmem with ⟨j, l', hj, hgt, heq⟩
    rcases Prod.mk.injEq .. ▸ heq with ⟨hij, hmsg⟩
    have hji : j = i := by omega
    subst hji
    rw [h] at hj
    cases hj
    exact ⟨hgt, by simpa using hmsg⟩
  constructor
  · intro hlen msg hmem
    have := (key msg hmem).1
    omega
  · intro hgt
    have hmem : (i + 1, line_too_long l.length RULES_line_length) ∈ line_length code [] :=
      mem_line_length.2 ⟨i, l, h, hgt, rfl⟩
    have hnd : (line_length code []).Nodup :=
      nodup_line_length_go RULES_line_length (splitlines code) 0 [] List.nodup_nil
    exact ⟨countIssue_eq_one hnd hmem, fun msg hm => (key msg hm).2⟩

/-- An 80-character physical line. -/
def code80 : String :=
  "aaaaaaaaaaaaaaaaaaaaaaaaaaaaaaaaaaaaaaaaaaaaaaaaaaaaaaaaaaaaaaaaaaaaaaaaaaaaaaaa"

/-- Witness for C7 at a concrete 80-character line. -/
theorem line_length_check_exact_witness :
    (splitlines code80)[0]? = some code80 ∧ RULES_line_length < code80.length ∧
    countIssue (line_length code80 [])
        (1, line_too_long code80.length RULES_line_length) = 1 :=
  ⟨rfl, by decide, ((line_length_check_exact code80 0 code80 rfl).2 (by decide)).1⟩

/-- C8: a physical line containing at least one semicolon gets the message
"multiple expressions on the same line" exactly once from the semicolon
check, regardless of how many semicolons it holds; a semicolon-free line
gets no such message. -/
theorem forbid_semicolons_check_exact (code : String) (i : Nat) (l : String)
    (h : (splitlines code)[i]? = some l) :
    (l.data.contains ';' = true →
      countIssue (forbid_semicolons code []) (i + 1, multiple_expressions) = 1) ∧
    (l.data.contains ';' = false →
      (i + 1, multiple_expressions) ∉ forbid_semicolons code []) := by
  constructor
  · intro hsem
    have hmem : (i + 1, multiple_expressions) ∈ forbid_semicolons code [] :=
      mem_forbid_semicolons.2 ⟨i, l, h, hsem, rfl⟩
    have hnd : (forbid_semicolons code []).Nodup :=
      nodup_forbid_semicolons_go (splitlines code) 0 [] List.nodup_nil
    exact countIssue_eq_one hnd hmem
  · intro hsem hmem
    rcases mem_forbid_semicolons.1 hmem with ⟨j, l', hj, hsem', heq⟩
    rcases Prod.mk.injEq .. ▸ heq with ⟨hij, -⟩
    have hji : j = i := by omega
    subst hji
    rw [h] at hj
    cases hj
    rw [hsem] at hsem'
    cases hsem'

/-- The source line of end-to-end example 2. -/
def codeSemi : String := "x = 1; y = 2"

/-- Witness for C8 at a concrete semicolon line. -/
theorem forbid_semicolons_check_exact_witness :
    (splitlines codeSemi)[0]? = some codeSemi ∧ codeSemi.data.contains ';' = true ∧
    countIssue (forbid_semicolons codeSemi []) (1, multiple_expressions) = 1 :=
  ⟨rfl, by decide, (forbid_semicolons_check_exact codeSemi 0 codeSemi rfl).1 (by decide)⟩

/-! ## Size bookkeeping for the fueled traversals -/

theorem sizeL_cons (n : PyNode) (ns : List PyNode) :
    sizeL (n :: ns) = sizeN n + sizeL ns := rfl

theorem sizeL_append (l₁ l₂ : List PyNode) :
    sizeL (l₁ ++ l₂) = sizeL l₁ + sizeL l₂ := by
  induction l₁ with
  | nil => simp [sizeL]
  | cons n rest ih => rw [List.cons_append, sizeL_cons, sizeL_cons, ih, Nat.add_assoc]

theorem sizeL_toList : ∀ xs : PyNodeList, sizeL xs.toList = sizeNL xs
  | .nil => rfl
  | .cons n ns => by rw [PyNodeList.toList, sizeL_cons, sizeL_toList ns, sizeNL]

theorem sizeN_pos (n : PyNode) : 1 ≤ sizeN n := by
  cases n with
  | mk l c h b p q => rw [sizeN]; omega

theorem sizeL_children_lt (n : PyNode) : sizeL (children n) < sizeN n := by
  cases n with
  | mk l c h b p q =>
    rw [children, sizeL_append, sizeL_append, sizeN]
    rw [PyNode.pre, PyNode.post, sizeL_toList, sizeL_toList]
    split
    · rw [PyNode.body, sizeL_toList]; omega
    · have : sizeL ([] : List PyNode) = 0 := rfl
      rw [this]; omega

theorem sizeL_flatMap_children :
    ∀ ns : List PyNode, sizeL (ns.flatMap children) + ns.length ≤ sizeL ns := by
  intro ns
  induction ns with
  | nil => simp [sizeL]
  | cons n rest ih =>
    rw [List.flatMap_cons, sizeL_append, sizeL_cons, List.length_cons]
    have h1 := sizeL_children_lt n
    omega

/-! ## The fueled traversals compute the traversal -/

theorem walkGo_nil (f : Nat) : walkGo f [] = [] := by cases f <;> rfl

theorem walkGo_eq : ∀ f : Nat, ∀ ns : List PyNode, sizeL ns < f →
    walkGo f ns = walkForest ns := by
  intro f
  induction f using Nat.strong_induction_on with
  | _ f ih =>
    intro ns h
    match f, ns with
    | f + 1, [] => rw [walkGo_nil, walkForest, walkGo_nil]
    | f + 1, n :: rest =>
      have hfm := sizeL_flatMap_children (n :: rest)
      rw [List.length_cons] at hfm
      have hsz : sizeL (n :: rest) < f + 1 := h
      rw [walkGo, walkForest]
      have h1 : sizeL (n :: rest) < sizeL (n :: rest) + 1 := Nat.lt_succ_self _
      rw [show walkGo (sizeL (n :: rest) + 1) (n :: rest) =
            (n :: rest) ++ walkGo (sizeL (n :: rest)) ((n :: rest).flatMap children)
          from rfl]
      have e1 : walkGo f ((n :: rest).flatMap children) =
          walkForest ((n :: rest).flatMap children) :=
        ih f (Nat.lt_succ_self f) _ (by omega)
      have e2 : walkGo (sizeL (n :: rest)) ((n :: rest).flatMap children) =
          walkForest ((n :: rest).flatMap children) :=
        ih (sizeL (n :: rest)) (by omega) _ (by omega)
      rw [e1, e2]

theorem walkForest_nil : walkForest [] = [] := rfl

theorem walkForest_cons (n : PyNode) (rest : List PyNode) :
    walkForest (n :: rest) = (n :: rest) ++ walkForest ((n :: rest).flatMap children) := by
  rw [walkForest]
  rw [show walkGo (sizeL (n :: rest) + 1) (n :: rest) =
        (n :: rest) ++ walkGo (sizeL (n :: rest)) ((n :: rest).flatMap children) from rfl]
  have hfm := sizeL_flatMap_children (n :: rest)
  rw [List.length_cons] at hfm
  rw [walkGo_eq (sizeL (n :: rest)) _ (by omega)]

theorem preGo_nil (f : Nat) : preGo f [] = [] := by cases f <;> rfl

theorem preGo_eq : ∀ f : Nat, ∀ ns : List PyNode, sizeL ns < f →
    preGo f ns = preorder ns := by
  intro f
  induction f using Nat.strong_induction_on with
  | _ f ih =>
    intro ns h
    match f, ns with
    | f + 1, [] => rw [preGo_nil, preorder, preGo_nil]
    | f + 1, n :: rest =>
      have hcl := sizeL_children_lt n
      have hpos := sizeN_pos n
      have hsz : sizeN n + sizeL rest < f + 1 := by
        have : sizeL (n :: rest) = sizeN n + sizeL rest := rfl
        omega
      rw [preGo, preorder]
      rw [show preGo (sizeL (n :: rest) + 1) (n :: rest) =
            n :: (preGo (sizeL (n :: rest)) (children n) ++
                  preGo (sizeL (n :: rest)) rest) from rfl]
      have hc : sizeL (children n) < f := by omega
      have hr : sizeL rest < f := by omega
      have hc' : sizeL (children n) < sizeL (n :: rest) := by
        rw [sizeL_cons]; omega
      have hr' : sizeL rest < sizeL (n :: rest) := by
        rw [sizeL_cons]; omega
      rw [ih f (Nat.lt_succ_self f) _ hc, ih f (Nat.lt_succ_self f) _ hr]
      rw [ih (sizeL (n :: rest)) (by omega) _ hc', ih (sizeL (n :: rest)) (by omega) _ hr']

theorem preorder_nil : preorder [] = [] := rfl

theorem preorder_cons (n : PyNode) (rest : List PyNode) :
    preorder (n :: rest) = n :: (preorder (children n) ++ preorder rest) := by
  rw [preorder]
  rw [show preGo (sizeL (n :: rest) + 1) (n :: rest) =
        n :: (preGo (sizeL (n :: rest)) (children n) ++
              preGo (sizeL (n :: rest)) rest) from rfl]
  have hcl := sizeL_children_lt n
  have hpos := sizeN_pos n
  have h : sizeL (n :: rest) = sizeN n + sizeL rest := rfl
  rw [preGo_eq (sizeL (n :: rest)) _ (by omega), preGo_eq (sizeL (n :: rest)) _ (by omega)]

/-! ## The breadth-first and pre-order body-bearing counts agree -/

/-- Number of body-bearing nodes the breadth-first walk of a forest visits. -/
def walkBodyCount (ns : List PyNode) : Nat :=
  ((walkForest ns).filter (fun x => x.hasBody)).length

/-- Number of body-bearing nodes the pre-order walk of a forest visits. -/
def preBodyCount (ns : List PyNode) : Nat :=
  ((preorder ns).filter (fun x => x.hasBody)).length

theorem walkBodyCount_rec (ns : List PyNode) :
    walkBodyCount ns =
      (ns.filter (fun x => x.hasBody)).length + walkBodyCount (ns.flatMap children) := by
  cases ns with
  | nil => simp [walkBodyCount, walkForest_nil]
  | cons n rest =>
    rw [walkBodyCount, walkForest_cons, List.filter_append, List.length_append]
    rfl

theorem walkBodyCount_append :
    ∀ N : Nat, ∀ l₁ l₂ : List PyNode, sizeL (l₁ ++ l₂) < N →
      walkBodyCount (l₁ ++ l₂) = walkBodyCount l₁ + walkBodyCount l₂ := by
  intro N
  induction N using Nat.strong_induction_on with
  | _ N ih =>
    intro l₁ l₂ h
    cases l₁ with
    | nil => simp [walkBodyCount, walkForest_nil]
    | cons n r₁ =>
      have hne : ((n :: r₁) ++ l₂).length ≥ 1 := by simp
      have hfm := sizeL_flatMap_children ((n :: r₁) ++ l₂)
      rw [walkBodyCount_rec ((n :: r₁) ++ l₂), List.flatMap_append, List.filter_append,
        List.length_append]
      have hN : sizeL ((n :: r₁).flatMap children ++ l₂.flatMap children) <
          sizeL ((n :: r₁) ++ l₂) := by
        rw [← List.flatMap_append]; omega
      have hlt : sizeL ((n :: r₁) ++ l₂) < N := h
      rw [ih (sizeL ((n :: r₁) ++ l₂)) (by omega) _ _ hN]
      rw [walkBodyCount_rec (n :: r₁), walkBodyCount_rec l₂]
      omega

theorem walkBodyCount_append' (l₁ l₂ : List PyNode) :
    walkBodyCount (l₁ ++ l₂) = walkBodyCount l₁ + walkBodyCount l₂ :=
  walkBodyCount_append (sizeL (l₁ ++ l₂) + 1) l₁ l₂ (Nat.lt_succ_self _)

theorem walkBodyCount_eq_preBodyCount :
    ∀ N : Nat, ∀ ns : List PyNode, sizeL ns < N → walkBodyCount ns = preBodyCount ns := by
  intro N
  induction N using Nat.strong_induction_on with
  | _ N ih =>
    intro ns h
    cases ns with
    | nil => rfl
    | cons n rest =>
      have hcl := sizeL_children_lt n
      have hpos := sizeN_pos n
      have hsz : sizeL (n :: rest) = sizeN n + sizeL rest := rfl
      have e0 : walkBodyCount (n :: rest) = walkBodyCount [n] + walkBodyCount rest := by
        rw [← walkBodyCount_append' [n] rest]
        rfl
      have e1 : walkBodyCount [n] =
          (if n.hasBody then 1 else 0) + walkBodyCount (children n) := by
        rw [walkBodyCount_rec [n]]
        have : ([n] : List PyNode).flatMap children = children n := by simp
        rw [this]
        cases hb : n.hasBody <;> simp [hb]
      have e2 : walkBodyCount (children n) = preBodyCount (children n) :=
        ih (sizeL (n :: rest)) (by omega) _ (by omega)
      have e3 : walkBodyCount rest = preBodyCount rest :=
        ih (sizeL (n :: rest)) (by omega) _ (by omega)
      have e4 : preBodyCount (n :: rest) =
          (if n.hasBody then 1 else 0) + preBodyCount (children n) + preBodyCount rest := by
        cases hb : n.hasBody <;>
          simp [preBodyCount, preorder_cons, List.filter_cons, List.filter_append, hb] <;>
          omega
      rw [e0, e1, e2, e3, e4]

theorem walkBodyCount_eq (ns : List PyNode) : walkBodyCount ns = preBodyCount ns :=
  walkBodyCount_eq_preBodyCount (sizeL ns + 1) ns (Nat.lt_succ_self _)

/-- The node count the nesting check computes over its breadth-first walk is
the total number of body-bearing nodes in the subtree. -/
theorem walk_filter_length_eq_bodyCount (n : PyNode) :
    ((walkForest [n]).filter (fun x => x.hasBody)).length = bodyCount n :=
  walkBodyCount_eq [n]

/-! ## The nesting check -/

theorem max_nesting_eq_of_body (m : Module) (first : PyNode) (rest : List PyNode)
    (issues : Issues) (h : m.body = first :: rest) :
    max_nesting m issues =
      (if ((walkForest [first]).filter (fun x => x.hasBody)).length > 3 then
        match ((walkForest [first]).filter (fun x => x.hasBody)).getLast? with
        | some lst =>
          .ok (addIssue issues (lst.lineno + 1)
            (nesting_too_deep ((walkForest [first]).filter (fun x => x.hasBody)).length 3))
        | none => .error .indexError
      else .ok issues) := by
  unfold max_nesting
  rw [h]

/-- Case analysis of `max_nesting` on a module with at least one top-level
statement, phrased with the order-independent `bodyCount`. -/
theorem max_nesting_cases (m : Module) (first : PyNode) (rest : List PyNode)
    (issues : Issues) (h : m.body = first :: rest) :
    (bodyCount first ≤ 3 → max_nesting m issues = .ok issues) ∧
    (3 < bodyCount first →
      ∃ lst, ((walkForest [first]).filter (fun x => x.hasBody)).getLast? = some lst ∧
        max_nesting m issues =
          .ok (addIssue issues (lst.lineno + 1)
            (nesting_too_deep (bodyCount first) 3))) := by
  have hunf := max_nesting_eq_of_body m first rest issues h
  have hcnt := walk_filter_length_eq_bodyCount first
  constructor
  · intro hle
    rw [hunf, if_neg (by omega)]
  · intro hgt
    have hne : ((walkForest [first]).filter (fun x => x.hasBody)) ≠ [] := by
      intro hnil
      rw [hnil] at hcnt
      simp at hcnt
      omega
    obtain ⟨lst, hlst⟩ :=
      Option.isSome_iff_exists.1 (List.getLast?_isSome.2 hne)
    refine ⟨lst, hlst, ?_⟩
    rw [hunf, if_pos (by omega), hlst, hcnt]

/-- C5: for a source with at least one top-level statement, the nesting
check counts the total number of body-bearing nodes in the subtree rooted at
the first top-level statement, and exactly when that count exceeds the
check's `max_nesting` threshold (the hardcoded `max_nesting_level = 3`) it
adds "nesting too deep (actual > allowed)" at the line immediately after the
declaration line of the last body-bearing node of its walk (the walk being
`ast.walk`'s breadth-first order). -/
theorem max_nesting_check_spec (m : Module) (first : PyNode) (rest : List PyNode)
    (issues : Issues) (h : m.body = first :: rest) :
    (bodyCount first ≤ 3 → max_nesting m issues = .ok issues) ∧
    (3 < bodyCount first →
      ∃ lst, ((walkForest [first]).filter (fun x => x.hasBody)).getLast? = some lst ∧
        max_nesting m issues =
          .ok (addIssue issues (lst.lineno + 1)
            (nesting_too_deep (bodyCount first) 3))) :=
  max_nesting_cases m first rest issues h

/-! ### A concrete deeply nested program

The AST of
```
def f():
    if a:
        if b:
            if c:
                pass
```
with the location data `ast.parse` produces (`ctx` leaves such as `Load`
carry no fields the checks read and are elided). -/

def passNode : PyNode := node 5 16 false [] [] []
def nameC : PyNode := node 4 15 false [] [] []
def if4 : PyNode := node 4 12 true [passNode] [nameC] []
def nameB : PyNode := node 3 11 false [] [] []
def if3 : PyNode := node 3 8 true [if4] [nameB] []
def nameA : PyNode := node 2 7 false [] [] []
def if2 : PyNode := node 2 4 true [if3] [nameA] []

/-- The `arguments` node of `def f()` (childless for an empty signature). -/
def argsNode : PyNode := node 1 0 false [] [] []
def fdef : PyNode := node 1 0 true [if2] [argsNode] []
def M2 : Module := ⟨[fdef]⟩
def code2 : String :=
  "def f():\n    if a:\n        if b:\n            if c:\n                pass"

/-- A stub for `ast.parse` that knows the one program `code2`. -/
def parse2 : String → Except PyError Module :=
  fun s => if s = code2 then .ok M2 else .error .syntaxError

/-- Witness for C5: the nested program has 4 body-bearing nodes and the
check emits at line 5. -/
theorem max_nesting_check_spec_witness :
    M2.body = fdef :: [] ∧ 3 < bodyCount fdef ∧
    (∃ lst, ((walkForest [fdef]).filter (fun x => x.hasBody)).getLast? = some lst ∧
      max_nesting M2 [] =
        .ok (addIssue [] (lst.lineno + 1) (nesting_too_deep (bodyCount fdef) 3))) :=
  ⟨rfl, by decide, (max_nesting_check_spec M2 fdef [] [] rfl).2 (by decide)⟩

/-- Counterexample to C2: under the default rule set (no overrides — the
dict entry `max_nesting: None` untouched), `critic` still reports
"nesting too deep (4 > 3)" at line 5 of the nested program, because the
check hardcodes `max_nesting_level = 3` instead of reading `RULES`. -/
theorem critic_default_reports_nesting :
    critic parse2 code2 [] = .ok [(5, nesting_too_deep 4 3)] := by
  rfl

/-- C2 amended: the default `RULES` entry for `max_nesting` is `None`
(disabled), but the check ignores it: with no overrides the nesting check
fires exactly when the body-bearing count of the first top-level statement's
subtree exceeds the hardcoded threshold 3. -/
theorem max_nesting_default_threshold (m : Module) (first : PyNode)
    (rest : List PyNode) (h : m.body = first :: rest) :
    RULES_max_nesting = none ∧
    (max_nesting m [] = .ok [] ↔ bodyCount first ≤ 3) := by
  refine ⟨rfl, ?_⟩
  rcases max_nesting_cases m first rest [] h with ⟨h1, h2⟩
  constructor
  · intro hok
    by_contra hgt
    push_neg at hgt
    rcases h2 (by omega) with ⟨lst, -, heq⟩
    rw [heq] at hok
    have : addIssue [] (lst.lineno + 1) (nesting_too_deep (bodyCount first) 3) = [] := by
      injection hok
    simp [addIssue] at this
  · exact h1

/-- Witness for the amended C2 at the nested program. -/
theorem max_nesting_default_threshold_witness :
    M2.body = fdef :: [] ∧ RULES_max_nesting = none ∧
    (max_nesting M2 [] = .ok [] ↔ bodyCount fdef ≤ 3) :=
  ⟨rfl, max_nesting_default_threshold M2 fdef [] rfl⟩

/-! ## The indentation check -/

/-- C6: at each body-bearing node of the walk, with `last_offset` the running
previous offset: a first body statement indented exactly
`RULES['indentation_size']` more adds no issue; indented
`indentation_size + 1` more it adds exactly one
"indentation is D instead of S" message at that statement's line, with D the
actual increase; and in every case the running offset becomes the child's
offset before the walk continues — the whole check being one such pass, with
a single running offset, over the breadth-first walk of the entire tree. -/
theorem indentation_check_step (n c : PyNode) (cs rest : List PyNode)
    (last_offset : Nat) (issues : Issues)
    (hb : n.hasBody = true) (hbody : n.body = c :: cs) :
    (c.col_offset = last_offset + RULES_indentation_size →
      ind_go RULES_indentation_size (n :: rest) last_offset issues =
        ind_go RULES_indentation_size rest c.col_offset issues) ∧
    (c.col_offset = last_offset + RULES_indentation_size + 1 →
      ind_go RULES_indentation_size (n :: rest) last_offset issues =
        ind_go RULES_indentation_size rest c.col_offset
          (addIssue issues c.lineno
            (indentation (RULES_indentation_size + 1) RULES_indentation_size))) ∧
    (∃ issues', ind_go RULES_indentation_size (n :: rest) last_offset issues =
        ind_go RULES_indentation_size rest c.col_offset issues') ∧
    (∀ (m : Module) (start : Issues),
      indentation_size m start =
        ind_go RULES_indentation_size (walkForest [m.toNode]) 0 start) := by
  refine ⟨?_, ?_, ?_, fun m start => rfl⟩
  · intro heq
    simp only [ind_go, hb, if_true, hbody]
    rw [if_neg (by omega)]
  · intro heq
    simp only [ind_go, hb, if_true, hbody]
    rw [if_pos (by omega)]
    have harith : c.col_offset - last_offset = RULES_indentation_size + 1 := by omega
    rw [harith]
  · simp only [ind_go, hb, if_true, hbody]
    split
    · exact ⟨_, rfl⟩
    · exact ⟨_, rfl⟩

/-- A body-bearing node whose first body statement sits at column 5 on
line 2, one column deeper than the configured indent allows. -/
def nIndentC : PyNode := node 2 5 false [] [] []
def nIndent : PyNode := node 1 0 true [nIndentC] [] []

/-- Witness for C6 at a concrete over-indented node. -/
theorem indentation_check_step_witness :
    nIndent.hasBody = true ∧ nIndent.body = nIndentC :: [] ∧
    nIndentC.col_offset = 0 + RULES_indentation_size + 1 ∧
    ind_go RULES_indentation_size [nIndent] 0 [] =
      ind_go RULES_indentation_size [] nIndentC.col_offset
        (addIssue [] nIndentC.lineno
          (indentation (RULES_indentation_size + 1) RULES_indentation_size)) :=
  ⟨rfl, rfl, by decide,
    (indentation_check_step nIndent nIndentC [] [] 0 [] rfl rfl).2.1 (by decide)⟩

/-! ## The facade: parsing, overrides, degenerate inputs -/

/-- An `ast.parse` stub that knows only the empty program, whose AST is a
Module with an empty body. -/
def parse0 : String → Except PyError Module :=
  fun s => if s = "" then .ok ⟨[]⟩ else .error .syntaxError

/-- C1 (code bug): on the empty source text — a successfully parsed Module
with no top-level statement — analysis raises `IndexError`
(`self.parsed_code.body[0]` in `max_nesting`, likewise `node.body[0]` on the
root in `indentation_size`) instead of returning an empty sink. -/
theorem critic_empty_source_raises :
    critic parse0 "" [] = .error PyError.indexError := rfl

/-- C3: `critic(code, **rules)` never threads its overrides into the
analyzer — for every parser behavior, source and override mapping the result
equals the run with no overrides. -/
theorem critic_overrides_noninterference
    (parse : String → Except PyError Module) (code : String)
    (rules : List (String × Nat)) :
    critic parse code rules = critic parse code [] := rfl

/-- The AST of `x = 1`: one Assign whose children are a Name and a
Constant. -/
def nameX : PyNode := node 1 0 false [] [] []
def const1 : PyNode := node 1 4 false [] [] []
def assign1 : PyNode := node 1 0 false [] [nameX, const1] []
def M1 : Module := ⟨[assign1]⟩
def code1 : String := "x = 1"

/-- An `ast.parse` stub that knows the one program `code1`. -/
def parse1 : String → Except PyError Module :=
  fun s => if s = code1 then .ok M1 else .error .syntaxError

/-- Counterexample to C4: an override mapping with the unknown key
"unknown_rule" produces a normal, issue-free analysis of `x = 1` — no
`ConfigError` (no such error exists anywhere in the program), no error at
all. -/
theorem critic_unknown_key_no_error :
    critic parse1 code1 [("unknown_rule", 1)] = .ok [] := rfl

/-- C4 amended: an override mapping containing a key that is not a known
rule name is silently ignored — analysis proceeds exactly as with no
overrides and raises no configuration error. -/
theorem critic_unknown_key_ignored
    (parse : String → Except PyError Module) (code : String)
    (rules : List (String × Nat)) (k : String) (v : Nat)
    (hk : (k, v) ∈ rules) (hunknown : k ∉ RULE_NAMES) :
    critic parse code rules = critic parse code [] := rfl

/-- Witness for the amended C4. -/
theorem critic_unknown_key_ignored_witness :
    ("unknown_rule", 1) ∈ [("unknown_rule", 1)] ∧ "unknown_rule" ∉ RULE_NAMES ∧
    critic parse1 code1 [("unknown_rule", 1)] = critic parse1 code1 [] :=
  ⟨by decide, by decide,
    critic_unknown_key_ignored parse1 code1 [("unknown_rule", 1)] "unknown_rule" 1
      (by decide) (by decide)⟩

/-- C9: when the source cannot be parsed, the parse error surfaces to the
caller of `critic` unchanged, and no sink — partial or otherwise — is
returned (the result is the error alone). -/
theorem critic_syntax_error_propagates
    (parse : String → Except PyError Module) (code : String)
    (rules : List (String × Nat)) (e : PyError)
    (h : parse code = .error e) :
    critic parse code rules = .error e := by
  rw [critic, h]
  rfl

/-- An `ast.parse` stub that rejects everything. -/
def parseFail : String → Except PyError Module := fun _ => .error .syntaxError

/-- Witness for C9 at the unparsable source "(". -/
theorem critic_syntax_error_propagates_witness :
    parseFail "(" = .error PyError.syntaxError ∧
    critic parseFail "(" [] = .error PyError.syntaxError :=
  ⟨rfl, critic_syntax_error_propagates parseFail "(" [] .syntaxError rfl⟩

/-- C10: a `CodeAnalyzer` constructed directly with a truthy (non-empty)
rules mapping runs no check at all: for every successfully parsed source,
`analyze` returns the still-empty sink. -/
theorem analyze_truthy_rules_empty
    (parse : String → Except PyError Module) (code : String) (m : Module)
    (hp : parse code = .ok m) (r : String × Nat) (rs : List (String × Nat)) :
    analyze { code := code, parsed_code := m, rules := some (r :: rs) } = .ok [] := by
  rw [analyze]
  simp [rulesTruthy]

/-- Witness for C10 with an explicit `line_length` override. -/
theorem analyze_truthy_rules_empty_witness :
    parse1 code1 = .ok M1 ∧
    analyze { code := code1, parsed_code := M1,
              rules := some [("line_length", 100)] } = .ok [] :=
  ⟨rfl, analyze_truthy_rules_empty parse1 code1 M1 rfl ("line_length", 100) []⟩

end PyCritic
